/-
Verification of the retrieval-augmented context engine of the
agentic-finance-analysis repository, as a shallow embedding in Lean 4.

Modelling conventions used throughout:
* Python `float` values are modelled as `ℚ`; the numeric literals the code
  compares against (0.7, 0.6, 0.8, 0.1) are exactly representable, and all
  quantities compared in the claims are small exact rationals, so the
  comparisons agree with the source's float comparisons.
* A Python value that the code tests for truthiness is modelled as an
  `Option`: `some v` stands for a present, truthy value (non-empty dict /
  non-empty string / non-zero number), `none` for a missing or falsy one.
  Lists are modelled as `List` and truthiness as non-emptiness.
* Python string methods are modelled by explicit functions over the
  character list of the string (`String.data`), so that every definition
  evaluates inside the kernel.
* Calls to external collaborators (embedding provider, data collectors)
  are modelled by passing their results in as parameters; `FetchOutcome`
  distinguishes a truthy result, a falsy result, and a raised exception.
-/
import Mathlib

set_option maxHeartbeats 1600000
set_option maxRecDepth 16000

namespace AgentFin

/-! ## Python string primitives -/

/-- Source `str.upper()` (ASCII, as in all inputs the core handles). -/
def pyUpper (s : String) : String := String.mk (s.data.map Char.toUpper)

/-- Source `str.lower()`. -/
def pyLower (s : String) : String := String.mk (s.data.map Char.toLower)

/-- Source `str.strip()`: remove leading and trailing whitespace. -/
def pyStrip (s : String) : String :=
  String.mk (((s.data.dropWhile Char.isWhitespace).reverse.dropWhile Char.isWhitespace).reverse)

/-- Helper for `str.split()`: cut a character list into maximal runs of
characters satisfying `keep`, discarding the separators. -/
def splitRunsAux (keep : Char → Bool) : List Char → List Char → List String
  | [], cur => if cur.isEmpty then [] else [String.mk cur.reverse]
  | c :: rest, cur =>
    if keep c then splitRunsAux keep rest (c :: cur)
    else if cur.isEmpty then splitRunsAux keep rest []
    else String.mk cur.reverse :: splitRunsAux keep rest []

/-- Source `str.split()` with no argument: split on whitespace runs, dropping
empty pieces. -/
def pySplitWs (s : String) : List String :=
  splitRunsAux (fun c => !c.isWhitespace) s.data []

/-! ## News articles and deduplication

Source: `src/data/processors/data_processor.py`,
`StockDataProcessor._deduplicate_news` (lines 250-275) and the
byte-identical `NewsWebScraper._deduplicate_news` in
`agent_fin/core/data/scrapers/news_scraper.py` (lines 297-322). -/

/-- A scraped/collected news article.  Fields are the dictionary keys the
core reads; `none` models a missing or falsy entry. -/
structure NewsArticle where
  title : Option String := none
  link : Option String := none
  published : Option String := none
  published_date : Option String := none
  publisher : Option String := none
  summary : Option String := none
  source : Option String := none
  deriving DecidableEq, Repr, Inhabited

/-- Source `article.get("title", "").lower().strip()`. -/
def normTitle (a : NewsArticle) : String :=
  pyStrip (pyLower (a.title.getD ""))

/-- Source `set(title.split())`: the distinct words of a title. -/
def wordSet (title : String) : List String :=
  (pySplitWs title).eraseDups

/-- Source `len(title_words & seen_words) / max(len(title_words), len(seen_words))`.
Both arguments are duplicate-free lists, so the filter length is the
cardinality of the set intersection. -/
def titleOverlap (titleWords seenWords : List String) : ℚ :=
  ((titleWords.filter (fun w => w ∈ seenWords)).length : ℚ) /
    ((max titleWords.length seenWords.length : ℕ) : ℚ)

/-- The inner `for seen_title in seen_titles` loop: the article is a
duplicate when some previously accepted title overlaps by more than 0.7.
Membership in the Python `set` is modelled by membership in a list; only
existence is consumed, so the set's iteration order is irrelevant. -/
def isDuplicateTitle (titleWords : List String) (seen : List String) : Bool :=
  seen.any (fun t => titleOverlap titleWords (wordSet t) > 7/10)

/-- The deduplication pass, with the accepted-titles set threaded as an
explicit parameter. -/
def dedupLoop (seen : List String) : List NewsArticle → List NewsArticle
  | [] => []
  | a :: rest =>
    let title := normTitle a
    if title = "" then dedupLoop seen rest
    else if isDuplicateTitle (wordSet title) seen then dedupLoop seen rest
    else a :: dedupLoop (title :: seen) rest

/-- Source `_deduplicate_news(news_list)`. -/
def deduplicateNews (l : List NewsArticle) : List NewsArticle :=
  dedupLoop [] l

/-! ## Symbol extraction from free text

Source: `src/rag/retriever.py`, `StockRAGRetriever._extract_symbol_from_query`
(lines 77-104).  The method uppercases the query and runs three regular
expressions over it, returning the first captured group that is 1-5
alphabetic characters; if none matches it falls back to a company-name
search through the (external) data-fusion layer, which is outside this
pattern-matching stage.

The regex semantics are modelled through the word-run decomposition of the
uppercased query: a maximal run of word characters (`\w`) matches
`\b([A-Z]{1,5})\b` exactly when it consists solely of 1-5 uppercase
letters, since no word boundary occurs inside a run.  `re.findall` scans
left to right, so the first valid capture is the first qualifying run. -/

/-- Python regex word character (`\w`), ASCII range. -/
def isWordChar (c : Char) : Bool := c.isAlphanum || c = '_'

/-- Decompose a string into its maximal word-character runs, each paired
with the separator string that precedes it. -/
def tokenizeAux : List Char → List Char → List Char → List (String × String)
  | [], sep, cur =>
    if cur.isEmpty then [] else [(String.mk sep.reverse, String.mk cur.reverse)]
  | c :: rest, sep, cur =>
    if isWordChar c then tokenizeAux rest sep (c :: cur)
    else if cur.isEmpty then tokenizeAux rest (c :: sep) []
    else (String.mk sep.reverse, String.mk cur.reverse) :: tokenizeAux rest [c] []

/-- All word runs of `s` with their preceding separators, left to right. -/
def wordTokens (s : String) : List (String × String) :=
  tokenizeAux s.data [] []

/-- A run matches the capture group `([A-Z]{1,5})` bounded by word
boundaries: one to five uppercase letters.  (Such a capture automatically
passes the source's `1 <= len(match) <= 5 and match.isalpha()` filter.) -/
def isUpperToken (w : String) : Bool :=
  decide (1 ≤ w.length) && decide (w.length ≤ 5) && w.data.all (fun c => 'A' ≤ c && c ≤ 'Z')

/-- Pattern 1, `\b([A-Z]{1,5})\b(?:\s+stock|\s+shares?|\s+company)?`:
every qualifying word run matches (the optional suffix does not affect
the first capture). -/
def pattern1Captures (toks : List (String × String)) : List String :=
  (toks.map (fun t => t.2)).filter isUpperToken

/-- Pattern 2, `\$([A-Z]{1,5})\b`: qualifying runs whose immediately
preceding character is a dollar sign. -/
def pattern2Captures (toks : List (String × String)) : List String :=
  (toks.filter (fun t => isUpperToken t.2 && (t.1.data.getLastD ' ' = '$'))).map (fun t => t.2)

/-- Keywords accepted after the captured token by pattern 3 (uppercased,
with `SHARES?` contributing both forms). -/
def pattern3Keywords : List String := ["STOCK", "SHARES", "SHARE", "COMPANY", "CORP", "INC"]

/-- Pattern 3, `\b([A-Z]{1,5})\s+(?:stock|shares?|company|corp|inc)\b`:
qualifying runs followed by pure whitespace and one of the keywords. -/
def pattern3Captures : List (String × String) → List String
  | [] => []
  | [_] => []
  | t :: u :: rest =>
    if isUpperToken t.2 && !u.1.isEmpty && u.1.data.all Char.isWhitespace &&
        decide (u.2 ∈ pattern3Keywords) then
      t.2 :: pattern3Captures (u :: rest)
    else pattern3Captures (u :: rest)

/-- The pattern-matching stage of `_extract_symbol_from_query`: for each
pattern in order, take the first valid capture.  (The subsequent
company-keyword search fallback goes through the external data-fusion
collaborator and is not part of this stage.) -/
def extractSymbolPatterns (query : String) : Option String :=
  let toks := wordTokens (pyUpper query)
  match pattern1Captures toks with
  | m :: _ => some m
  | [] =>
    match pattern2Captures toks with
    | m :: _ => some m
    | [] =>
      match pattern3Captures toks with
      | m :: _ => some m
      | [] => none

/-! ## Context chunk selection

Source: `src/rag/retriever.py`, `StockRAGRetriever._select_best_context`
(lines 209-243). -/

/-- A candidate context chunk as consumed by `_select_best_context`:
`chunk.get("text", "")`, `chunk.get("metadata", {}).get("type", "unknown")`
and `chunk.get("score", 0)` are the only fields read, so the dictionary is
modelled by those three values with the defaults already applied. -/
structure Chunk where
  text : String
  type : String := "unknown"
  score : ℚ := 0
  deriving DecidableEq, Repr, Inhabited

/-- The greedy selection loop over the score-sorted candidates. -/
def selectLoop (maxLength : ℕ) : List Chunk → List Chunk → ℕ → List String → List Chunk
  | [], selected, _, _ => selected
  | c :: rest, selected, totalLength, seenTypes =>
    let chunkLength := c.text.length
    if totalLength + chunkLength > maxLength then
      selectLoop maxLength rest selected totalLength seenTypes
    else
      let typePenalty : ℚ := if c.type ∈ seenTypes then 1/10 else 0
      let adjustedScore := c.score - typePenalty
      if adjustedScore > 6/10 then
        let selected2 := selected ++ [c]
        let total2 := totalLength + chunkLength
        if 8 ≤ selected2.length ∨ (total2 : ℚ) > (maxLength : ℚ) * (8/10) then
          selected2
        else
          selectLoop maxLength rest selected2 total2 (c.type :: seenTypes)
      else
        selectLoop maxLength rest selected totalLength seenTypes

/-- Source `_select_best_context(context_chunks, query, max_length)`.  `sorted`
with `reverse=True` is a stable descending sort by score, modelled by a
stable merge sort whose comparison prefers the left element on ties.
The `query` argument is unused by the source body and kept for shape. -/
def selectBestContext (contextChunks : List Chunk) (_query : String) (maxLength : ℕ) : List Chunk :=
  if contextChunks.isEmpty then []
  else
    let sortedChunks := contextChunks.mergeSort (fun a b => decide (b.score ≤ a.score))
    selectLoop maxLength sortedChunks [] 0 []

/-! ## Structured data model

The dictionaries flowing between the data processor
(`src/data/processors/data_processor.py`) and the vector store
(`agent_fin/core/vector_db/faiss_manager.py`), restricted to the keys the
modelled code reads.  Sub-records whose internals the core never inspects
(ratios, statements, earnings, estimates, calendar) are carried as opaque
payloads. -/

/-- A quote dictionary as produced by a collector; `source` is the
collector's self-identification read by the sources-used bookkeeping. -/
structure Quote where
  price : Option ℚ := none
  source : Option String := none
  deriving DecidableEq, Repr

/-- Company profile record (keys read by `_format_company_overview`). -/
structure CompanyInfo where
  name : Option String := none
  description : Option String := none
  sector : Option String := none
  industry : Option String := none
  market_cap : Option ℤ := none
  employees : Option ℤ := none
  source : Option String := none
  deriving DecidableEq, Repr

/-- One entry of a key-metrics list.  The source keys are `pe_ratio`,
`debt_to_equity` and `roe`. -/
structure MetricEntry where
  pe : Option ℚ := none
  debtToEquity : Option ℚ := none
  roe : Option ℚ := none
  deriving DecidableEq, Repr

/-- The `key_metrics` sub-record returned by the FMP collector. -/
structure KeyMetricsData where
  key_metrics : List MetricEntry := []
  source : Option String := none
  deriving DecidableEq, Repr

/-- Opaque financial-ratios payload. -/
structure RatiosData where
  payload : String := ""
  deriving DecidableEq, Repr

/-- Opaque financial-statements payload. -/
structure StatementsData where
  payload : String := ""
  deriving DecidableEq, Repr

/-- Opaque earnings payload. -/
structure EarningsData where
  payload : String := ""
  deriving DecidableEq, Repr

/-- Opaque analyst-estimates payload. -/
structure EstimatesData where
  payload : String := ""
  deriving DecidableEq, Repr

/-- Opaque earnings-calendar payload. -/
structure CalendarData where
  payload : String := ""
  deriving DecidableEq, Repr

/-- One analyst recommendation (key `to_grade`). -/
structure RecEntry where
  to_grade : Option String := none
  deriving DecidableEq, Repr

/-- The `recommendations` sub-record returned by Yahoo Finance. -/
structure RecsData where
  recommendations : List RecEntry := []
  source : Option String := none
  deriving DecidableEq, Repr

/-- The merged financial record assembled by `_get_financial_data`. -/
structure FinancialInfo where
  key_metrics : Option KeyMetricsData := none
  financial_ratios : Option RatiosData := none
  financial_statements : Option StatementsData := none
  earnings : Option EarningsData := none
  source : Option String := none
  deriving DecidableEq, Repr

/-- One bar of historical price data (only `close` is read). -/
structure Bar where
  close : Option ℚ := none
  deriving DecidableEq, Repr

/-- Historical price record: `data` is most-recent-first. -/
structure HistoricalInfo where
  data : List Bar := []
  source : Option String := none
  deriving DecidableEq, Repr

/-- The merged analyst record assembled by `_get_analyst_data`. -/
structure AnalystInfo where
  recommendations : Option RecsData := none
  estimates : Option EstimatesData := none
  earnings_calendar : Option CalendarData := none
  source : Option String := none
  deriving DecidableEq, Repr

/-- The comprehensive per-symbol record built by
`get_comprehensive_stock_data` and consumed by `add_company_data`. -/
structure StockRecord where
  symbol : String
  timestamp : String
  quote : Option Quote := none
  company : Option CompanyInfo := none
  historical : Option HistoricalInfo := none
  financial : Option FinancialInfo := none
  news : Option (List NewsArticle) := none
  analyst : Option AnalystInfo := none
  sources_used : List String := []
  deriving DecidableEq, Repr

/-! ## Multi-source data fusion

Source: `src/data/processors/data_processor.py`,
`StockDataProcessor.get_comprehensive_stock_data` (lines 23-65) and the
per-category helpers (lines 67-248).  Every outbound collector call is
wrapped in `try/except`, so a call has three observable outcomes: a truthy
result, a falsy result, or a raised exception. -/

/-- Outcome of one collector call. -/
inductive FetchOutcome (α : Type) where
  | ok (val : α)
  | empty
  | exc
  deriving DecidableEq, Repr

/-- A call that did not produce a truthy result (falsy return or raised). -/
def FetchOutcome.failed {α : Type} : FetchOutcome α → Bool
  | .ok _ => false
  | _ => true

/-- The per-category preference loop: skip raised and falsy results, take
the first truthy one, `None` if every source fails. -/
def firstSuccess {α : Type} : List (FetchOutcome α) → Option α
  | [] => none
  | .ok v :: _ => some v
  | _ :: rest => firstSuccess rest

/-- One assignment of outcomes to every collector call issued by a single
`get_comprehensive_stock_data` invocation. -/
structure CollectorOutcomes where
  quoteYahoo : FetchOutcome Quote := .exc
  quoteAlpha : FetchOutcome Quote := .exc
  quoteFmp : FetchOutcome Quote := .exc
  companyAlpha : FetchOutcome CompanyInfo := .exc
  companyYahoo : FetchOutcome CompanyInfo := .exc
  companyFmp : FetchOutcome CompanyInfo := .exc
  historicalYahoo : FetchOutcome HistoricalInfo := .exc
  historicalAlpha : FetchOutcome HistoricalInfo := .exc
  historicalFmp : FetchOutcome HistoricalInfo := .exc
  fmpKeyMetrics : FetchOutcome KeyMetricsData := .exc
  fmpRatios : FetchOutcome RatiosData := .exc
  yfStatements : FetchOutcome StatementsData := .exc
  avEarnings : FetchOutcome EarningsData := .exc
  newsYahoo : FetchOutcome (List NewsArticle) := .exc
  newsFmp : FetchOutcome (List NewsArticle) := .exc
  yfRecommendations : FetchOutcome RecsData := .exc
  fmpEstimates : FetchOutcome EstimatesData := .exc
  yfCalendar : FetchOutcome CalendarData := .exc
  fmpCalendar : FetchOutcome CalendarData := .exc

/-- Source `_get_quote_data`: preference order yahoo, alpha vantage, FMP. -/
def getQuoteData (oc : CollectorOutcomes) : Option Quote :=
  firstSuccess [oc.quoteYahoo, oc.quoteAlpha, oc.quoteFmp]

/-- Source `_get_company_data`: preference order alpha vantage, yahoo, FMP. -/
def getCompanyData (oc : CollectorOutcomes) : Option CompanyInfo :=
  firstSuccess [oc.companyAlpha, oc.companyYahoo, oc.companyFmp]

/-- Source `_get_historical_data`: preference order yahoo, alpha vantage, FMP. -/
def getHistoricalData (oc : CollectorOutcomes) : Option HistoricalInfo :=
  firstSuccess [oc.historicalYahoo, oc.historicalAlpha, oc.historicalFmp]

/-- Source `_get_financial_data`: merges complementary contributions from four
calls; each is individually exception-isolated, and the category is `None`
only when the merged dictionary stays empty. -/
def getFinancialData (oc : CollectorOutcomes) : Option FinancialInfo :=
  let fd0 : FinancialInfo := {}
  let fd1 := match oc.fmpKeyMetrics with
    | .ok m => { fd0 with key_metrics := some m }
    | _ => fd0
  let fd2 := match oc.fmpRatios with
    | .ok r => { fd1 with financial_ratios := some r }
    | _ => fd1
  let fd3 := match oc.yfStatements with
    | .ok s => { fd2 with financial_statements := some s }
    | _ => fd2
  let fd4 := match oc.avEarnings with
    | .ok e => { fd3 with earnings := some e }
    | _ => fd3
  if fd4.key_metrics.isSome || fd4.financial_ratios.isSome ||
      fd4.financial_statements.isSome || fd4.earnings.isSome then
    some { fd4 with source := some "multiple" }
  else none

/-- The sort key `x.get("published", x.get("published_date", ""))`. -/
def newsSortKey (a : NewsArticle) : String :=
  a.published.getD (a.published_date.getD "")

/-- Source `_get_news_data`: aggregate across all collectors, deduplicate, sort
most-recent-first (stable descending sort, as Python's `list.sort` with
`reverse=True`). -/
def getNewsData (oc : CollectorOutcomes) : Option (List NewsArticle) :=
  let yfNews := match oc.newsYahoo with
    | .ok l => l
    | _ => []
  let fmpNews := match oc.newsFmp with
    | .ok l => l
    | _ => []
  let allNews := yfNews ++ fmpNews
  if allNews.isEmpty then none
  else
    let uniqueNews := deduplicateNews allNews
    some (uniqueNews.mergeSort (fun a b => decide (newsSortKey b ≤ newsSortKey a)))

/-- Source `_get_analyst_data`: merge recommendations, estimates and earnings
calendar.  The calendar lookup tries Yahoo first and falls back to FMP
only when Yahoo returned a falsy value; if the Yahoo call raises, the
shared `except` aborts the whole calendar block and FMP is never tried. -/
def getAnalystData (oc : CollectorOutcomes) : Option AnalystInfo :=
  let a0 : AnalystInfo := {}
  let a1 := match oc.yfRecommendations with
    | .ok r => { a0 with recommendations := some r }
    | _ => a0
  let a2 := match oc.fmpEstimates with
    | .ok e => { a1 with estimates := some e }
    | _ => a1
  let a3 := match oc.yfCalendar with
    | .ok c => { a2 with earnings_calendar := some c }
    | .empty =>
      match oc.fmpCalendar with
      | .ok c => { a2 with earnings_calendar := some c }
      | _ => a2
    | .exc => a2
  if a3.recommendations.isSome || a3.estimates.isSome || a3.earnings_calendar.isSome then
    some { a3 with source := some "multiple" }
  else none

/-- Source `if value["source"] not in sources_used: sources_used.append(...)`. -/
def addSourceUnique (acc : List String) (s : String) : List String :=
  if s ∈ acc then acc else acc ++ [s]

/-- Add a source name when the record carries one. -/
def addOptSource (acc : List String) : Option String → List String
  | some s => addSourceUnique acc s
  | none => acc

/-- The `for key, value in comprehensive_data.items()` bookkeeping loop:
dictionary values carrying a `source` key contribute it, in the insertion
order quote, company, historical, financial, news (first article), analyst;
the string-valued keys and the still-empty `sources_used` entry match
neither `isinstance` test. -/
def collectSources (r : StockRecord) : List String :=
  let l1 := addOptSource [] (r.quote.bind (fun q => q.source))
  let l2 := addOptSource l1 (r.company.bind (fun c => c.source))
  let l3 := addOptSource l2 (r.historical.bind (fun h => h.source))
  let l4 := addOptSource l3 (r.financial.bind (fun f => f.source))
  let l5 := match r.news with
    | some (a :: _) => addOptSource l4 a.source
    | _ => l4
  addOptSource l5 (r.analyst.bind (fun a => a.source))

/-- Source `get_comprehensive_stock_data(symbol)`.  The six category tasks are
gathered with `return_exceptions=True` and an exception value is mapped to
`None`; since the per-category helpers above are total (they already
isolate every collector exception), the whole call is a total function of
the collector outcomes — it never raises. -/
def getComprehensiveStockData (symbol now : String) (oc : CollectorOutcomes) : StockRecord :=
  let record : StockRecord := {
    symbol := pyUpper symbol
    timestamp := now
    quote := getQuoteData oc
    company := getCompanyData oc
    historical := getHistoricalData oc
    financial := getFinancialData oc
    news := getNewsData oc
    analyst := getAnalystData oc
    sources_used := [] }
  { record with sources_used := collectSources record }

/-! ## Document formatters

Source: `agent_fin/core/vector_db/faiss_manager.py`, lines 355-442.
Numeric rendering helpers model Python's format specifiers on the exact
rational value (rounding half away from zero); the claims depend on the
guard structure and the computed quantities, not on float bit patterns. -/

/-- Python `{:.2f}`. -/
def formatFixed2 (q : ℚ) : String :=
  let n : ℤ := round (q * 100)
  let m := n.natAbs
  (if n < 0 then "-" else "") ++ toString (m / 100) ++ "." ++
    (if m % 100 < 10 then "0" else "") ++ toString (m % 100)

/-- Python `{:+.2f}`: an explicit sign character. -/
def formatSigned2 (q : ℚ) : String :=
  if round (q * 100) < 0 then formatFixed2 q else "+" ++ formatFixed2 q

/-- Python `{:.2%}`. -/
def formatPercent2 (q : ℚ) : String :=
  formatFixed2 (q * 100) ++ "%"

/-- Digit-grouping helper over the reversed digit list. -/
def groupDigitsAux : List Char → ℕ → List Char
  | [], _ => []
  | d :: rest, k =>
    (if k ≠ 0 ∧ k % 3 = 0 then [','] else []) ++ d :: groupDigitsAux rest (k + 1)

/-- Python `{:,}` on an integer. -/
def formatThousands (n : ℤ) : String :=
  (if n < 0 then "-" else "") ++
    String.mk ((groupDigitsAux (toString n.natAbs).data.reverse 0).reverse)

/-- Source `_format_company_overview(symbol, company_info)`. -/
def formatCompanyOverview (symbol : String) (ci : CompanyInfo) : String :=
  let parts := ["Company: " ++ ci.name.getD symbol ++ " (" ++ symbol ++ ")"]
  let parts := parts ++ (match ci.description with
    | some d => ["Description: " ++ d]
    | none => [])
  let parts := parts ++ (match ci.sector with
    | some s => ["Sector: " ++ s]
    | none => [])
  let parts := parts ++ (match ci.industry with
    | some i => ["Industry: " ++ i]
    | none => [])
  let parts := parts ++ (match ci.market_cap with
    | some m => ["Market Cap: $" ++ formatThousands m]
    | none => [])
  let parts := parts ++ (match ci.employees with
    | some e => ["Employees: " ++ formatThousands e]
    | none => [])
  String.intercalate " | " parts

/-- Source `_format_financial_data(symbol, financial_info)`. -/
def formatFinancialData (symbol : String) (fi : FinancialInfo) : String :=
  let parts := ["Financial Data for " ++ symbol]
  let parts := parts ++ (match fi.key_metrics with
    | some km =>
      match km.key_metrics with
      | latest :: _ =>
        (match latest.pe with
          | some v => ["P/E Ratio: " ++ formatFixed2 v]
          | none => []) ++
        (match latest.debtToEquity with
          | some v => ["Debt-to-Equity: " ++ formatFixed2 v]
          | none => []) ++
        (match latest.roe with
          | some v => ["ROE: " ++ formatPercent2 v]
          | none => [])
      | [] => []
    | none => [])
  String.intercalate " | " parts

/-- Source `prices = [d["close"] for d in data[:30] if d.get("close")]`: the
closes of the 30 most recent bars, keeping only truthy (present and
non-zero) values. -/
def extractClosePrices (hi : HistoricalInfo) : List ℚ :=
  (hi.data.take 30).filterMap (fun b => b.close.bind (fun c => if c = 0 then none else some c))

/-- Source `_format_historical_data(symbol, historical_info)`. -/
def formatHistoricalData (symbol : String) (hi : HistoricalInfo) : String :=
  if hi.data.isEmpty then "Historical data for " ++ symbol
  else
    let prices := extractClosePrices hi
    if 2 ≤ prices.length then
      let currentPrice := prices.headD 0
      let monthAgoPrice := prices.getLastD 0
      let changePercent := (currentPrice - monthAgoPrice) / monthAgoPrice * 100
      "Historical Performance for " ++ symbol ++ ": Current $" ++ formatFixed2 currentPrice ++
        ", 30-day change: " ++ formatSigned2 changePercent ++ "%"
    else "Historical data for " ++ symbol

/-- Source `_format_news_article(symbol, article)`. -/
def formatNewsArticle (symbol : String) (article : NewsArticle) : String :=
  let parts := ["News for " ++ symbol]
  let parts := parts ++ (match article.title with
    | some t => ["Title: " ++ t]
    | none => [])
  let parts := parts ++ (match article.summary with
    | some s => ["Summary: " ++ s]
    | none => [])
  let parts := parts ++ (match article.published with
    | some p => ["Published: " ++ p]
    | none => [])
  let parts := parts ++ (match article.publisher with
    | some p => ["Source: " ++ p]
    | none => [])
  String.intercalate " | " parts

/-- Source `_format_analyst_data(symbol, analyst_info)`. -/
def formatAnalystData (symbol : String) (ai : AnalystInfo) : String :=
  let parts := ["Analyst Data for " ++ symbol]
  let parts := parts ++ (match ai.recommendations with
    | some rd =>
      match rd.recommendations with
      | [] => []
      | r :: rest =>
        let recentRecs := (r :: rest).take 5
        let recSummary := String.intercalate ", " (recentRecs.filterMap (fun e => e.to_grade))
        if recSummary = "" then [] else ["Recent Recommendations: " ++ recSummary]
    | none => [])
  String.intercalate " | " parts

/-! ## Vector index store

Source: `agent_fin/core/vector_db/faiss_manager.py`, class `FAISSVectorDB`.
The FAISS `IndexFlatIP` is an ordered sequence of vectors; `ntotal` is its
length and `add` appends.  `faiss.normalize_L2` rescales every row in
place without changing the number or order of rows, so the model stores
the appended rows directly (no claim depends on the scaling).  Disk
persistence (`_save_index`) swallows its own errors and does not affect
the in-memory state, so it is not modelled. -/

/-- One document dictionary as assembled by `add_company_data`:
`text`, `type`, `symbol`, `timestamp`, plus the news-specific
`article_date` and `source` entries (empty when absent). -/
structure Doc where
  text : String
  type : String
  symbol : String
  timestamp : String
  article_date : String := ""
  source : String := ""
  deriving DecidableEq, Repr, Inhabited

/-- The in-memory state of `FAISSVectorDB`: parallel `documents` and
`metadata` lists, the `company_index` dictionary (an insertion-ordered
association list, as a Python dict), and the FAISS index rows. -/
structure VectorStore where
  documents : List String := []
  metadata : List Doc := []
  companyIndex : List (String × List ℕ) := []
  index : List (List ℚ) := []
  deriving DecidableEq, Repr, Inhabited

/-- Source `company_index.get(sym)`. -/
def lookupCI (ci : List (String × List ℕ)) (sym : String) : Option (List ℕ) :=
  (ci.find? (fun e => e.1 == sym)).map (fun e => e.2)

/-- Source `if symbol not in company_index: company_index[symbol] = []` followed
by `company_index[symbol].append(pos)`. -/
def updateCompanyIndex (ci : List (String × List ℕ)) (sym : String) (pos : ℕ) :
    List (String × List ℕ) :=
  match lookupCI ci sym with
  | none => ci ++ [(sym, [pos])]
  | some _ => ci.map (fun e => if e.1 == sym then (e.1, e.2 ++ [pos]) else e)

/-- The `for i, doc in enumerate(documents)` body of `_add_documents`:
append text and metadata, record position `start_idx + i` under the
document's symbol. -/
def ingestLoop (startIdx : ℕ) : ℕ → List Doc → VectorStore → VectorStore
  | _, [], st => st
  | i, d :: rest, st =>
    let st2 : VectorStore := { st with
      documents := st.documents ++ [d.text]
      metadata := st.metadata ++ [d]
      companyIndex := updateCompanyIndex st.companyIndex d.symbol (startIdx + i) }
    ingestLoop startIdx (i + 1) rest st2

/-- Source `_add_documents(documents)`.  The embedding provider is passed in as a
function; a falsy result (`None` or `[]`) aborts the whole batch with the
store untouched.  On success the (normalized) vectors are appended to the
index and the parallel lists and symbol map are extended. -/
def addDocuments (embed : List String → List (List ℚ)) (st : VectorStore)
    (documents : List Doc) : VectorStore :=
  let texts := documents.map (fun d => d.text)
  let embeddings := embed texts
  if embeddings.isEmpty then st
  else
    let st2 : VectorStore := { st with index := st.index ++ embeddings }
    ingestLoop st.documents.length 0 documents st2

/-- The `documents_to_add` list assembled by `add_company_data` from the
truthy category fields, in source order: company overview, financial,
historical, news (at most 10 articles), analyst. -/
def buildDocumentsToAdd (symbol now : String) (cd : StockRecord) : List Doc :=
  (match cd.company with
    | some ci => [{ text := formatCompanyOverview symbol ci, type := "company_overview",
                    symbol := symbol, timestamp := now }]
    | none => []) ++
  (match cd.financial with
    | some fi => [{ text := formatFinancialData symbol fi, type := "financial_data",
                    symbol := symbol, timestamp := now }]
    | none => []) ++
  (match cd.historical with
    | some hi => [{ text := formatHistoricalData symbol hi, type := "historical_data",
                    symbol := symbol, timestamp := now }]
    | none => []) ++
  (match cd.news with
    | some (a :: rest) => ((a :: rest).take 10).map (fun article =>
        { text := formatNewsArticle symbol article, type := "news_article",
          symbol := symbol, timestamp := now,
          article_date := article.published.getD "", source := article.source.getD "" })
    | _ => []) ++
  (match cd.analyst with
    | some ai => [{ text := formatAnalystData symbol ai, type := "analyst_data",
                    symbol := symbol, timestamp := now }]
    | none => [])

/-- Source `add_company_data(symbol, company_data)`: build the per-category
documents and, when any exist, embed and ingest them and return `True`;
with nothing to add, return `False`.  (`datetime.now().isoformat()` is
passed in as `now`.) -/
def addCompanyData (embed : List String → List (List ℚ)) (now : String) (st : VectorStore)
    (symbol : String) (companyData : StockRecord) : Bool × VectorStore :=
  let documentsToAdd := buildDocumentsToAdd symbol now companyData
  if documentsToAdd.isEmpty then (false, st)
  else (true, addDocuments embed st documentsToAdd)

/-- The `for i, (doc, meta) in enumerate(zip(documents, metadata))` body of
`remove_company_data`: keep entries whose position is not being removed,
assigning fresh consecutive positions in the rebuilt symbol map. -/
def removeLoop (indices : List ℕ) : List (ℕ × String × Doc) →
    List String → List Doc → List (String × List ℕ) →
    List String × List Doc × List (String × List ℕ)
  | [], docs, metas, ci => (docs, metas, ci)
  | (i, d, m) :: rest, docs, metas, ci =>
    if i ∈ indices then removeLoop indices rest docs metas ci
    else removeLoop indices rest (docs ++ [d]) (metas ++ [m])
      (updateCompanyIndex ci (pyUpper m.symbol) docs.length)

/-- Source `remove_company_data(symbol)`.  When the remainder is non-empty the
FAISS index is rebuilt by an asynchronously scheduled task
(`asyncio.create_task(self._rebuild_index())`), so the in-memory index
keeps its old rows at return time; when nothing remains,
`_create_new_index()` resets everything synchronously. -/
def removeCompanyData (st : VectorStore) (symbol : String) : Bool × VectorStore :=
  let indices := (lookupCI st.companyIndex (pyUpper symbol)).getD []
  if indices.isEmpty then (false, st)
  else
    let res := removeLoop indices ((st.documents.zip st.metadata).enum) [] [] []
    if res.1.length < st.documents.length then
      if res.1.isEmpty then
        (true, { documents := [], metadata := [], companyIndex := [], index := [] })
      else
        (true, { documents := res.1, metadata := res.2.1,
                 companyIndex := res.2.2, index := st.index })
    else (false, st)

/-- The dictionary returned by `get_stats()`. -/
structure DBStats where
  total_documents : ℕ
  total_companies : ℕ
  index_size : ℕ
  dimension : ℕ
  companies : List String
  deriving DecidableEq, Repr

/-- Source `get_stats()`; the configured embedding dimension is a parameter. -/
def getStats (st : VectorStore) (dimension : ℕ) : DBStats :=
  { total_documents := st.documents.length
    total_companies := st.companyIndex.length
    index_size := st.index.length
    dimension := dimension
    companies := st.companyIndex.map (fun e => e.1) }

/-- Inner product of two vectors (the FAISS `IndexFlatIP` score). -/
def innerProduct (a b : List ℚ) : ℚ :=
  ((a.zip b).map (fun p => p.1 * p.2)).sum

/-- One entry of a search result list. -/
structure SearchResult where
  text : String
  metadata : Doc
  score : ℚ
  index : ℕ
  deriving DecidableEq, Repr

/-- Top-`k` inner-product search over a vector list (`faiss.knn` /
`index.search`): scores paired with positions, best first. -/
def knnTop (qv : List ℚ) (vectors : List (List ℚ)) (k : ℕ) : List (ℚ × ℕ) :=
  (((vectors.enum).map (fun p => (innerProduct qv p.2, p.1))).mergeSort
    (fun a b => decide (b.1 ≤ a.1))).take k

/-- Source `search(query, k, symbol_filter)`.  The query embedding is passed in
(`None` models an embedding failure, which yields `[]`).  An empty index
yields `[]`.  With a symbol filter, the candidate set is the symbol's
known positions; an out-of-range position would make
`index.reconstruct` raise, which the surrounding `except` converts to
`[]`. -/
def search (st : VectorStore) (queryEmbedding : Option (List ℚ)) (k : ℕ)
    (symbolFilter : Option String) : List SearchResult :=
  if st.index.length = 0 then []
  else
    match queryEmbedding with
    | none => []
    | some qv =>
      match symbolFilter with
      | some sym =>
        let candidateIndices := (lookupCI st.companyIndex (pyUpper sym)).getD []
        if candidateIndices.isEmpty then []
        else if candidateIndices.any (fun i => decide (st.index.length ≤ i)) then []
        else
          let hits := knnTop qv (candidateIndices.map (fun i => st.index.getD i []))
            (min k candidateIndices.length)
          hits.filterMap (fun hit =>
            if hit.2 < candidateIndices.length then
              let originalIdx := candidateIndices.getD hit.2 0
              some { text := st.documents.getD originalIdx ""
                     metadata := st.metadata.getD originalIdx default
                     score := hit.1
                     index := originalIdx }
            else none)
      | none =>
        let hits := knnTop qv st.index k
        hits.filterMap (fun hit =>
          if hit.2 < st.documents.length then
            some { text := st.documents.getD hit.2 ""
                   metadata := st.metadata.getD hit.2 default
                   score := hit.1
                   index := hit.2 }
          else none)

/-- The documented store invariant: the parallel lists and the index agree
in length, and every position recorded under any symbol is a valid
document index. -/
def StoreInv (st : VectorStore) : Prop :=
  st.documents.length = st.metadata.length ∧
  st.metadata.length = st.index.length ∧
  ∀ e ∈ st.companyIndex, ∀ p ∈ e.2, p < st.documents.length

/-! ## Concrete inputs used by the claims -/

/-- An ASCII apostrophe (avoiding a quote character in the literal). -/
def apostrophe : String := String.mk [Char.ofNat 39]

/-- The spec's first symbol-extraction example query. -/
def queryAboutAAPL : String := "What" ++ apostrophe ++ "s $AAPL worth today?"

/-- The spec's second symbol-extraction example query. -/
def queryAboutMarket : String := "Tell me about the market"

/-- The spec's duplicate-pair example, first article. -/
def articleQuarter : NewsArticle := { title := some "Apple beats earnings estimates this quarter" }

/-- The spec's duplicate-pair example, second article (abbreviated title). -/
def articleQtr : NewsArticle := { title := some "Apple beats earnings estimates this qtr" }

/-- The spec's disjoint-pair example, first article. -/
def articleApple : NewsArticle := { title := some "Apple beats earnings" }

/-- The spec's disjoint-pair example, second article. -/
def articleTesla : NewsArticle := { title := some "Tesla misses delivery targets" }

/-- An article with no title (normalizes to the empty string). -/
def articleUntitled : NewsArticle := {}

/-- Cumulative character length of a chunk list. -/
def sumLen (l : List Chunk) : ℕ := (l.map (fun c => c.text.length)).sum

/-- A candidate chunk of text length 500 for the C4 witness. -/
def chunk500 : Chunk := { text := String.mk (List.replicate 500 'a'), type := "news_article", score := 1 }

/-- Twenty such candidates. -/
def chunks20 : List Chunk := List.replicate 20 chunk500

/-- A length-preserving stand-in embedding provider for witnesses. -/
def witnessEmbed : List String → List (List ℚ) := fun ts => ts.map (fun _ => [1])

/-- A concrete company-overview document. -/
def witnessDoc : Doc :=
  { text := "Company: Apple (AAPL)", type := "company_overview", symbol := "AAPL", timestamp := "t0" }

/-- The freshly created empty store. -/
def emptyStore : VectorStore := {}

/-- An embedding provider that always fails (returns no embeddings). -/
def failingEmbed : List String → List (List ℚ) := fun _ => []

/-- A record whose only truthy category is the company profile. -/
def appleRecord : StockRecord :=
  { symbol := "AAPL", timestamp := "t0", company := some { name := some "Apple" } }

/-- A record with no truthy category fields. -/
def bareRecord : StockRecord := { symbol := "AAPL", timestamp := "t0" }

/-- The secondary collector's quote for the C7 witness. -/
def secondaryQuote : Quote := { source := some "alpha_vantage" }

/-- Outcomes where the preferred quote collector raises and the secondary
succeeds (all other collectors raise, the structure's defaults). -/
def fallbackOutcomes : CollectorOutcomes := { quoteYahoo := .exc, quoteAlpha := .ok secondaryQuote }

/-- Two bars of historical data (closes 100 and 90). -/
def histTwoBars : HistoricalInfo := { data := [{ close := some 100 }, { close := some 90 }] }

/-- The symbol-map rebuild performed by the removal loop, as a standalone
pass over the surviving metadata: entry `start + j` is recorded under the
uppercased symbol of the `j`-th survivor. -/
def buildCIAux (start : ℕ) (ci : List (String × List ℕ)) : List Doc → List (String × List ℕ)
  | [] => ci
  | m :: rest => buildCIAux (start + 1) (updateCompanyIndex ci (pyUpper m.symbol) start) rest

/-- The fresh symbol-to-position map over a metadata list. -/
def buildCompanyIndex (metas : List Doc) : List (String × List ℕ) :=
  buildCIAux 0 [] metas

/-- The concrete two-symbol store of the C6 scenario: one AAPL document
at position 0 and one TSLA document at position 1. -/
def twoSymbolStore : VectorStore :=
  { documents := ["Company: Apple (AAPL)", "Company: Tesla (TSLA)"]
    metadata := [{ text := "Company: Apple (AAPL)", type := "company_overview",
                   symbol := "AAPL", timestamp := "t0" },
                 { text := "Company: Tesla (TSLA)", type := "company_overview",
                   symbol := "TSLA", timestamp := "t0" }]
    companyIndex := [("AAPL", [0]), ("TSLA", [1])]
    index := [[1, 0], [0, 1]] }

/-! ## Helper lemmas -/

/-- Every capture of pattern 1 is a qualifying uppercase token. -/
theorem pattern1_upper {toks : List (String × String)} {m : String}
    (h : m ∈ pattern1Captures toks) : isUpperToken m = true := by
  simp only [pattern1Captures, List.mem_filter] at h
  exact h.2

/-- Every capture of pattern 2 is a qualifying uppercase token. -/
theorem pattern2_upper {toks : List (String × String)} {m : String}
    (h : m ∈ pattern2Captures toks) : isUpperToken m = true := by
  simp only [pattern2Captures, List.mem_map] at h
  obtain ⟨t, ht, rfl⟩ := h
  simp only [List.mem_filter, Bool.and_eq_true] at ht
  exact ht.2.1

/-- Every capture of pattern 3 is a qualifying uppercase token. -/
theorem pattern3_upper : ∀ {toks : List (String × String)} {m : String},
    m ∈ pattern3Captures toks → isUpperToken m = true := by
  intro toks
  induction toks with
  | nil => intro m h; simp [pattern3Captures] at h
  | cons t rest ih =>
    cases rest with
    | nil => intro m h; simp [pattern3Captures] at h
    | cons u rest2 =>
      intro m h
      rw [pattern3Captures] at h
      by_cases hc : (isUpperToken t.2 && !u.1.isEmpty && u.1.data.all Char.isWhitespace &&
          decide (u.2 ∈ pattern3Keywords)) = true
      · rw [if_pos hc] at h
        rcases List.mem_cons.mp h with rfl | h2
        · simp only [Bool.and_eq_true] at hc
          exact hc.1.1.1
        · exact ih h2
      · rw [if_neg hc] at h
        exact ih h

/-- Any symbol produced by the pattern stage is a 1-5 letter all-caps token. -/
theorem extractSymbolPatterns_upper {q s : String}
    (h : extractSymbolPatterns q = some s) : isUpperToken s = true := by
  unfold extractSymbolPatterns at h
  dsimp only at h
  split at h
  · rename_i m1 r1 h1
    injection h with hinj
    subst hinj
    exact pattern1_upper (h1 ▸ List.mem_cons_self m1 r1)
  · split at h
    · rename_i m2 r2 h2
      injection h with hinj
      subst hinj
      exact pattern2_upper (h2 ▸ List.mem_cons_self m2 r2)
    · split at h
      · rename_i m3 r3 h3
        injection h with hinj
        subst hinj
        exact pattern3_upper (h3 ▸ List.mem_cons_self m3 r3)
      · exact absurd h (by simp)

/-! ## Claim theorems -/

/-- Claim C3 counterexample: The claim states that extraction on
`"What's $AAPL worth today?"` yields `"AAPL"` and that
`"Tell me about the market"` yields no symbol from pattern matching.
In fact the method uppercases the whole query before matching and applies
no stop-list, so the first 1-5 letter word wins: the first query yields
`"WHAT"` (not `"AAPL"`) and the second yields `"TELL"` (not nothing). -/
theorem C3_counterexample :
    extractSymbolPatterns queryAboutAAPL = some "WHAT" ∧
    extractSymbolPatterns queryAboutAAPL ≠ some "AAPL" ∧
    extractSymbolPatterns queryAboutMarket = some "TELL" ∧
    extractSymbolPatterns queryAboutMarket ≠ none := by
  refine ⟨by decide, by decide, by decide, by decide⟩

/-- Claim C3 amended: `_extract_symbol_from_query`'s pattern stage
uppercases the query and returns the first 1-5 letter alphabetic token
matched by its patterns, with no stop-list: on
`"What's $AAPL worth today?"` it returns `"WHAT"`, on
`"Tell me about the market"` it returns `"TELL"`, and every symbol it
ever returns is a 1-5 letter all-caps token. -/
theorem C3_symbol_extraction :
    extractSymbolPatterns queryAboutAAPL = some "WHAT" ∧
    extractSymbolPatterns queryAboutMarket = some "TELL" ∧
    ∀ q s, extractSymbolPatterns q = some s →
      1 ≤ s.length ∧ s.length ≤ 5 ∧ s.data.all (fun c => decide ('A' ≤ c) && decide (c ≤ 'Z')) = true := by
  refine ⟨by decide, by decide, ?_⟩
  intro q s h
  have hu := extractSymbolPatterns_upper h
  simp only [isUpperToken, Bool.and_eq_true, decide_eq_true_eq] at hu
  exact ⟨hu.1.1, hu.1.2, by simpa using hu.2⟩

/-- Claim C3 witness: for the amended theorem's universally quantified part,
at the query `"IBM results"`. -/
theorem C3_witness :
    extractSymbolPatterns "IBM results" = some "IBM" ∧
    (1 ≤ "IBM".length ∧ "IBM".length ≤ 5 ∧
      "IBM".data.all (fun c => decide ('A' ≤ c) && decide (c ≤ 'Z')) = true) :=
  ⟨by decide, C3_symbol_extraction.2.2 "IBM results" "IBM" (by decide)⟩

/-! ### Deduplication lemmas -/

theorem isDuplicateTitle_iff {A : List String} {seen : List String} :
    isDuplicateTitle A seen = true ↔ ∃ t ∈ seen, titleOverlap A (wordSet t) > 7/10 := by
  simp [isDuplicateTitle]

/-- The dedup output is a subsequence of the input. -/
theorem dedupLoop_sublist : ∀ (l : List NewsArticle) (seen : List String),
    (dedupLoop seen l).Sublist l := by
  intro l
  induction l with
  | nil => intro seen; simp [dedupLoop]
  | cons a rest ih =>
    intro seen
    rw [dedupLoop]
    by_cases h1 : normTitle a = ""
    · rw [if_pos h1]; exact (ih seen).cons a
    · rw [if_neg h1]
      by_cases h2 : isDuplicateTitle (wordSet (normTitle a)) seen = true
      · rw [if_pos h2]; exact (ih seen).cons a
      · rw [if_neg h2]; exact (ih (normTitle a :: seen)).cons₂ a

/-- Running the dedup pass over its own output (with the same starting
seen-set) changes nothing. -/
theorem dedupLoop_idem : ∀ (l : List NewsArticle) (seen : List String),
    dedupLoop seen (dedupLoop seen l) = dedupLoop seen l := by
  intro l
  induction l with
  | nil => intro seen; simp [dedupLoop]
  | cons a rest ih =>
    intro seen
    rw [dedupLoop]
    by_cases h1 : normTitle a = ""
    · rw [if_pos h1]; exact ih seen
    · rw [if_neg h1]
      by_cases h2 : isDuplicateTitle (wordSet (normTitle a)) seen = true
      · rw [if_pos h2]; exact ih seen
      · rw [if_neg h2]
        rw [dedupLoop]
        rw [if_neg h1, if_neg h2]
        rw [ih (normTitle a :: seen)]

/-- Every article the pass outputs has a non-empty normalized title. -/
theorem dedupLoop_titles_nonempty : ∀ (l : List NewsArticle) (seen : List String)
    (a : NewsArticle), a ∈ dedupLoop seen l → normTitle a ≠ "" := by
  intro l
  induction l with
  | nil => intro seen a h; simp [dedupLoop] at h
  | cons b rest ih =>
    intro seen a h
    rw [dedupLoop] at h
    by_cases h1 : normTitle b = ""
    · rw [if_pos h1] at h; exact ih seen a h
    · rw [if_neg h1] at h
      by_cases h2 : isDuplicateTitle (wordSet (normTitle b)) seen = true
      · rw [if_pos h2] at h; exact ih seen a h
      · rw [if_neg h2] at h
        rcases List.mem_cons.mp h with rfl | h3
        · exact h1
        · exact ih (normTitle b :: seen) a h3

/-- Every article the pass accepts was checked against every title in the
seen-set it started from: none of them overlaps it by more than 0.7. -/
theorem dedupLoop_not_dup_of_seen : ∀ (l : List NewsArticle) (seen : List String)
    (b : NewsArticle), b ∈ dedupLoop seen l →
    ∀ t ∈ seen, ¬(titleOverlap (wordSet (normTitle b)) (wordSet t) > 7/10) := by
  intro l
  induction l with
  | nil => intro seen b h; simp [dedupLoop] at h
  | cons a rest ih =>
    intro seen b h
    rw [dedupLoop] at h
    by_cases h1 : normTitle a = ""
    · rw [if_pos h1] at h; exact ih seen b h
    · rw [if_neg h1] at h
      by_cases h2 : isDuplicateTitle (wordSet (normTitle a)) seen = true
      · rw [if_pos h2] at h; exact ih seen b h
      · rw [if_neg h2] at h
        rcases List.mem_cons.mp h with rfl | h3
        · intro t ht
          have h4 : ¬∃ t ∈ seen, titleOverlap (wordSet (normTitle b)) (wordSet t) > 7/10 := by
            rw [← isDuplicateTitle_iff]
            simp [h2]
          intro hgt
          exact h4 ⟨t, ht, hgt⟩
        · intro t ht
          exact ih (normTitle a :: seen) b h3 t (List.mem_cons_of_mem _ ht)

/-- Accepted articles are pairwise non-duplicates: a later accepted
article overlaps each earlier one by at most 0.7. -/
theorem dedupLoop_pairwise : ∀ (l : List NewsArticle) (seen : List String),
    List.Pairwise
      (fun x y => titleOverlap (wordSet (normTitle y)) (wordSet (normTitle x)) ≤ 7/10)
      (dedupLoop seen l) := by
  intro l
  induction l with
  | nil => intro seen; simp [dedupLoop]
  | cons a rest ih =>
    intro seen
    rw [dedupLoop]
    by_cases h1 : normTitle a = ""
    · rw [if_pos h1]; exact ih seen
    · rw [if_neg h1]
      by_cases h2 : isDuplicateTitle (wordSet (normTitle a)) seen = true
      · rw [if_pos h2]; exact ih seen
      · rw [if_neg h2]
        refine List.Pairwise.cons ?_ (ih (normTitle a :: seen))
        intro y hy
        have := dedupLoop_not_dup_of_seen rest (normTitle a :: seen) y hy
          (normTitle a) (List.mem_cons_self _ _)
        exact le_of_not_lt this

/-- An input article missing from the output either had an empty
normalized title, or overlaps an initially seen title or an accepted
output article by more than 0.7. -/
theorem dedupLoop_dropped : ∀ (l : List NewsArticle) (seen : List String)
    (a : NewsArticle), a ∈ l → a ∉ dedupLoop seen l →
    normTitle a = "" ∨
    (∃ t ∈ seen, titleOverlap (wordSet (normTitle a)) (wordSet t) > 7/10) ∨
    ∃ b ∈ dedupLoop seen l,
      titleOverlap (wordSet (normTitle a)) (wordSet (normTitle b)) > 7/10 := by
  intro l
  induction l with
  | nil => intro seen a h; simp at h
  | cons c rest ih =>
    intro seen a hmem hnot
    rw [dedupLoop] at hnot ⊢
    by_cases h1 : normTitle c = ""
    · rw [if_pos h1] at hnot ⊢
      rcases List.mem_cons.mp hmem with rfl | h3
      · exact Or.inl h1
      · exact ih seen a h3 hnot
    · rw [if_neg h1] at hnot ⊢
      by_cases h2 : isDuplicateTitle (wordSet (normTitle c)) seen = true
      · rw [if_pos h2] at hnot ⊢
        rcases List.mem_cons.mp hmem with rfl | h3
        · exact Or.inr (Or.inl (isDuplicateTitle_iff.mp h2))
        · exact ih seen a h3 hnot
      · rw [if_neg h2] at hnot ⊢
        rcases List.mem_cons.mp hmem with rfl | h3
        · exact absurd (List.mem_cons_self _ _) hnot
        · have hnot2 : a ∉ dedupLoop (normTitle c :: seen) rest := by
            intro hx
            exact hnot (List.mem_cons_of_mem _ hx)
          rcases ih (normTitle c :: seen) a h3 hnot2 with he | ⟨t, ht, hgt⟩ | ⟨b, hb, hgt⟩
          · exact Or.inl he
          · rcases List.mem_cons.mp ht with rfl | ht2
            · exact Or.inr (Or.inr ⟨c, List.mem_cons_self _ _, hgt⟩)
            · exact Or.inr (Or.inl ⟨t, ht2, hgt⟩)
          · exact Or.inr (Or.inr ⟨b, List.mem_cons_of_mem _ hb, hgt⟩)

/-- Claim C9: News deduplication is idempotent, and its output is a
subsequence of its input: no article is reordered, mutated or
introduced. -/
theorem C9_dedup_idempotent_sublist : ∀ l : List NewsArticle,
    deduplicateNews (deduplicateNews l) = deduplicateNews l ∧
    (deduplicateNews l).Sublist l :=
  fun l => ⟨dedupLoop_idem l [], dedupLoop_sublist l []⟩

/-- Claim C5: Deduplication is an order-preserving pass that drops an
article exactly when its normalized title overlaps a previously accepted
title by more than 0.7 (empty normalized titles are skipped):
the quarter/qtr pair loses its second member, the Apple/Tesla pair keeps
both; every surviving article has a non-empty title, survivors pairwise
overlap at most 0.7, and a dropped article either had an empty title or
overlaps some survivor by more than 0.7. -/
theorem C5_dedup_rule :
    deduplicateNews [articleQuarter, articleQtr] = [articleQuarter] ∧
    deduplicateNews [articleApple, articleTesla] = [articleApple, articleTesla] ∧
    (∀ l, ∀ a ∈ deduplicateNews l, normTitle a ≠ "") ∧
    (∀ l, List.Pairwise
      (fun x y => titleOverlap (wordSet (normTitle y)) (wordSet (normTitle x)) ≤ 7/10)
      (deduplicateNews l)) ∧
    (∀ l a, a ∈ l → a ∉ deduplicateNews l →
      normTitle a = "" ∨
      ∃ b ∈ deduplicateNews l,
        titleOverlap (wordSet (normTitle a)) (wordSet (normTitle b)) > 7/10) := by
  have hq : isDuplicateTitle (wordSet (normTitle articleQtr)) [normTitle articleQuarter] = true := by
    rw [isDuplicateTitle_iff]
    refine ⟨normTitle articleQuarter, List.mem_cons_self _ _, ?_⟩
    have h1 : ((wordSet (normTitle articleQtr)).filter
        (fun w => w ∈ wordSet (normTitle articleQuarter))).length = 5 := by decide
    have h2 : (wordSet (normTitle articleQtr)).length = 6 := by decide
    have h3 : (wordSet (normTitle articleQuarter)).length = 6 := by decide
    simp only [titleOverlap, h1, h2, h3]
    norm_num
  have hy : ¬(isDuplicateTitle (wordSet (normTitle articleTesla)) [normTitle articleApple] = true) := by
    rw [isDuplicateTitle_iff]
    rintro ⟨t, ht, hgt⟩
    rcases List.mem_cons.mp ht with rfl | hf
    · have h1 : ((wordSet (normTitle articleTesla)).filter
          (fun w => w ∈ wordSet (normTitle articleApple))).length = 0 := by decide
      simp only [titleOverlap, h1] at hgt
      norm_num at hgt
    · simp at hf
  refine ⟨?_, ?_, ?_, ?_, ?_⟩
  · show dedupLoop [] [articleQuarter, articleQtr] = [articleQuarter]
    rw [dedupLoop]
    rw [if_neg (by decide : ¬(normTitle articleQuarter = ""))]
    rw [if_neg (by decide : ¬(isDuplicateTitle (wordSet (normTitle articleQuarter)) [] = true))]
    rw [dedupLoop]
    rw [if_neg (by decide : ¬(normTitle articleQtr = ""))]
    rw [if_pos hq]
    rw [dedupLoop]
  · show dedupLoop [] [articleApple, articleTesla] = [articleApple, articleTesla]
    rw [dedupLoop]
    rw [if_neg (by decide : ¬(normTitle articleApple = ""))]
    rw [if_neg (by decide : ¬(isDuplicateTitle (wordSet (normTitle articleApple)) [] = true))]
    rw [dedupLoop]
    rw [if_neg (by decide : ¬(normTitle articleTesla = ""))]
    rw [if_neg hy]
    rw [dedupLoop]
  · exact fun l a h => dedupLoop_titles_nonempty l [] a h
  · exact fun l => dedupLoop_pairwise l []
  · intro l a hmem hnot
    rcases dedupLoop_dropped l [] a hmem hnot with he | ⟨t, ht, _⟩ | hex
    · exact Or.inl he
    · simp at ht
    · exact Or.inr hex

/-- Claim C5 witness: for the conditional parts, at the one-article list
whose article has no title: it is dropped, and the theorem's drop
characterization applies to it. -/
theorem C5_witness :
    articleUntitled ∈ [articleUntitled] ∧
    (normTitle articleUntitled = "" ∨
      ∃ b ∈ deduplicateNews [articleUntitled],
        titleOverlap (wordSet (normTitle articleUntitled)) (wordSet (normTitle b)) > 7/10) :=
  ⟨List.mem_cons_self _ _,
    C5_dedup_rule.2.2.2.2 [articleUntitled] articleUntitled (List.mem_cons_self _ _) (by decide)⟩

/-! ### Context-selection lemmas -/

theorem sumLen_append (l1 l2 : List Chunk) : sumLen (l1 ++ l2) = sumLen l1 + sumLen l2 := by
  simp [sumLen]

theorem sumLen_take_le (l : List Chunk) (n : ℕ) : sumLen (l.take n) ≤ sumLen l := by
  conv_rhs => rw [← List.take_append_drop n l]
  rw [sumLen_append]
  omega

/-- The selection loop never exceeds the character budget. -/
theorem selectLoop_sum_le (maxLength : ℕ) : ∀ (chunks selected : List Chunk)
    (totalLength : ℕ) (seenTypes : List String),
    totalLength = sumLen selected → totalLength ≤ maxLength →
    sumLen (selectLoop maxLength chunks selected totalLength seenTypes) ≤ maxLength := by
  intro chunks
  induction chunks with
  | nil =>
    intro sel tot seen h1 h2
    rw [selectLoop]
    omega
  | cons c rest ih =>
    intro sel tot seen h1 h2
    rw [selectLoop]
    by_cases hA : tot + c.text.length > maxLength
    · rw [if_pos hA]; exact ih sel tot seen h1 h2
    · rw [if_neg hA]
      by_cases hB : c.score - (if c.type ∈ seen then (1/10 : ℚ) else 0) > 6/10
      · rw [if_pos hB]
        by_cases hC : 8 ≤ (sel ++ [c]).length ∨
            ((tot + c.text.length : ℕ) : ℚ) > (maxLength : ℚ) * (8/10)
        · rw [if_pos hC]
          rw [sumLen_append, ← h1]
          simp only [sumLen, List.map_cons, List.map_nil, List.sum_cons, List.sum_nil]
          omega
        · rw [if_neg hC]
          refine ih (sel ++ [c]) (tot + c.text.length) (c.type :: seen) ?_ (by omega)
          rw [sumLen_append, ← h1]
          simp [sumLen]
      · rw [if_neg hB]; exact ih sel tot seen h1 h2

/-- The selection loop accepts at most eight chunks. -/
theorem selectLoop_length_le (maxLength : ℕ) : ∀ (chunks selected : List Chunk)
    (totalLength : ℕ) (seenTypes : List String),
    selected.length < 8 →
    (selectLoop maxLength chunks selected totalLength seenTypes).length ≤ 8 := by
  intro chunks
  induction chunks with
  | nil =>
    intro sel tot seen h1
    rw [selectLoop]
    omega
  | cons c rest ih =>
    intro sel tot seen h1
    rw [selectLoop]
    by_cases hA : tot + c.text.length > maxLength
    · rw [if_pos hA]; exact ih sel tot seen h1
    · rw [if_neg hA]
      by_cases hB : c.score - (if c.type ∈ seen then (1/10 : ℚ) else 0) > 6/10
      · rw [if_pos hB]
        by_cases hC : 8 ≤ (sel ++ [c]).length ∨
            ((tot + c.text.length : ℕ) : ℚ) > (maxLength : ℚ) * (8/10)
        · rw [if_pos hC]
          simp only [List.length_append, List.length_cons, List.length_nil]
          omega
        · rw [if_neg hC]
          refine ih (sel ++ [c]) (tot + c.text.length) (c.type :: seen) ?_
          push_neg at hC
          simpa using hC.1
      · rw [if_neg hB]; exact ih sel tot seen h1

/-- Every chunk accepted before the final one was accepted with at most
80 percent of the budget consumed: each strict prefix of the output stays
within `0.8 * maxLength`. -/
theorem selectLoop_prefix_le (maxLength : ℕ) : ∀ (chunks selected : List Chunk)
    (totalLength : ℕ) (seenTypes : List String),
    totalLength = sumLen selected →
    ((totalLength : ℚ) ≤ (maxLength : ℚ) * (8/10)) →
    ∀ n, n < (selectLoop maxLength chunks selected totalLength seenTypes).length →
      ((sumLen ((selectLoop maxLength chunks selected totalLength seenTypes).take n) : ℚ) ≤
        (maxLength : ℚ) * (8/10)) := by
  intro chunks
  induction chunks with
  | nil =>
    intro sel tot seen h1 h2 n hn
    rw [selectLoop] at hn ⊢
    refine le_trans ?_ h2
    rw [h1]
    exact_mod_cast sumLen_take_le sel n
  | cons c rest ih =>
    intro sel tot seen h1 h2 n hn
    rw [selectLoop] at hn ⊢
    by_cases hA : tot + c.text.length > maxLength
    · rw [if_pos hA] at hn ⊢; exact ih sel tot seen h1 h2 n hn
    · rw [if_neg hA] at hn ⊢
      by_cases hB : c.score - (if c.type ∈ seen then (1/10 : ℚ) else 0) > 6/10
      · rw [if_pos hB] at hn ⊢
        by_cases hC : 8 ≤ (sel ++ [c]).length ∨
            ((tot + c.text.length : ℕ) : ℚ) > (maxLength : ℚ) * (8/10)
        · rw [if_pos hC] at hn ⊢
          simp only [List.length_append, List.length_cons, List.length_nil] at hn
          have hle : n ≤ sel.length := by omega
          rw [List.take_append_of_le_length hle]
          refine le_trans ?_ h2
          rw [h1]
          exact_mod_cast sumLen_take_le sel n
        · rw [if_neg hC] at hn ⊢
          push_neg at hC
          refine ih (sel ++ [c]) (tot + c.text.length) (c.type :: seen) ?_ hC.2 n hn
          rw [sumLen_append, ← h1]
          simp [sumLen]
      · rw [if_neg hB] at hn ⊢; exact ih sel tot seen h1 h2 n hn

/-- Every chunk in the loop's output came from the accumulator or the
remaining candidates. -/
theorem selectLoop_mem (maxLength : ℕ) : ∀ (chunks selected : List Chunk)
    (totalLength : ℕ) (seenTypes : List String) (c : Chunk),
    c ∈ selectLoop maxLength chunks selected totalLength seenTypes →
    c ∈ selected ∨ c ∈ chunks := by
  intro chunks
  induction chunks with
  | nil =>
    intro sel tot seen c h
    rw [selectLoop] at h
    exact Or.inl h
  | cons d rest ih =>
    intro sel tot seen c h
    rw [selectLoop] at h
    by_cases hA : tot + d.text.length > maxLength
    · rw [if_pos hA] at h
      rcases ih sel tot seen c h with h2 | h2
      · exact Or.inl h2
      · exact Or.inr (List.mem_cons_of_mem _ h2)
    · rw [if_neg hA] at h
      by_cases hB : d.score - (if d.type ∈ seen then (1/10 : ℚ) else 0) > 6/10
      · rw [if_pos hB] at h
        by_cases hC : 8 ≤ (sel ++ [d]).length ∨
            ((tot + d.text.length : ℕ) : ℚ) > (maxLength : ℚ) * (8/10)
        · rw [if_pos hC] at h
          rcases List.mem_append.mp h with h2 | h2
          · exact Or.inl h2
          · simp only [List.mem_singleton] at h2
            exact Or.inr (h2 ▸ List.mem_cons_self _ _)
        · rw [if_neg hC] at h
          rcases ih (sel ++ [d]) (tot + d.text.length) (d.type :: seen) c h with h2 | h2
          · rcases List.mem_append.mp h2 with h3 | h3
            · exact Or.inl h3
            · simp only [List.mem_singleton] at h3
              exact Or.inr (h3 ▸ List.mem_cons_self _ _)
          · exact Or.inr (List.mem_cons_of_mem _ h2)
      · rw [if_neg hB] at h
        rcases ih sel tot seen c h with h2 | h2
        · exact Or.inl h2
        · exact Or.inr (List.mem_cons_of_mem _ h2)

theorem sumLen_const : ∀ (l : List Chunk) (k : ℕ), (∀ c ∈ l, c.text.length = k) →
    sumLen l = k * l.length := by
  intro l k
  induction l with
  | nil => intro; simp [sumLen]
  | cons c rest ih =>
    intro h
    have hc := h c (List.mem_cons_self _ _)
    have hr := ih (fun d hd => h d (List.mem_cons_of_mem _ hd))
    simp only [sumLen, List.map_cons, List.sum_cons, List.length_cons] at *
    rw [hc, hr]
    ring

/-- Claim C4: The context selector respects the caller's character budget,
accepts at most 8 chunks, stops accepting once more than 80 percent of
the budget is consumed (every strict prefix of the output stays within
the 80 percent mark), and on 20 candidate chunks of text length 500 with
a budget of 2000 it accepts at most 4 chunks. -/
theorem C4_select_best_context (chunks : List Chunk) (query : String) (maxLength : ℕ) :
    sumLen (selectBestContext chunks query maxLength) ≤ maxLength ∧
    (selectBestContext chunks query maxLength).length ≤ 8 ∧
    (∀ n, n < (selectBestContext chunks query maxLength).length →
      ((sumLen ((selectBestContext chunks query maxLength).take n) : ℚ) ≤
        (maxLength : ℚ) * (8/10))) ∧
    ((∀ c ∈ chunks, c.text.length = 500) → maxLength = 2000 →
      (selectBestContext chunks query maxLength).length ≤ 4) := by
  unfold selectBestContext
  by_cases hE : chunks.isEmpty
  · rw [if_pos hE]
    refine ⟨by simp [sumLen], by simp, by simp, by simp⟩
  · have hgoal : (if chunks.isEmpty then [] else
        let sortedChunks := chunks.mergeSort (fun a b => decide (b.score ≤ a.score))
        selectLoop maxLength sortedChunks [] 0 []) =
        selectLoop maxLength (chunks.mergeSort (fun a b => decide (b.score ≤ a.score))) [] 0 [] := by
      rw [if_neg hE]
    rw [hgoal]
    set sorted := chunks.mergeSort (fun a b => decide (b.score ≤ a.score)) with hsorted
    have hsum := selectLoop_sum_le maxLength sorted [] 0 [] rfl (Nat.zero_le _)
    have hlen := selectLoop_length_le maxLength sorted [] 0 [] (by norm_num)
    have hpre := selectLoop_prefix_le maxLength sorted [] 0 [] rfl
      (by positivity)
    refine ⟨hsum, hlen, hpre, ?_⟩
    intro h500 hM
    subst hM
    have hmem : ∀ c ∈ selectLoop 2000 sorted [] 0 [], c.text.length = 500 := by
      intro c hc
      rcases selectLoop_mem 2000 sorted [] 0 [] c hc with h2 | h2
      · simp at h2
      · exact h500 c (List.mem_mergeSort.mp h2)
    have := sumLen_const _ 500 hmem
    omega

/-- Claim C4 witness: at 20 chunks of length 500 and budget 2000, at most
4 chunks are accepted. -/
theorem C4_witness : (selectBestContext chunks20 "budget" 2000).length ≤ 4 :=
  (C4_select_best_context chunks20 "budget" 2000).2.2.2 (by decide) rfl

/-! ### Vector-store add lemmas -/

theorem mem_updateCompanyIndex {ci : List (String × List ℕ)} {sym : String} {pos : ℕ}
    {e : String × List ℕ} {p : ℕ} (he : e ∈ updateCompanyIndex ci sym pos) (hp : p ∈ e.2) :
    (∃ e2 ∈ ci, p ∈ e2.2) ∨ p = pos := by
  unfold updateCompanyIndex at he
  cases hl : lookupCI ci sym with
  | none =>
    rw [hl] at he
    rcases List.mem_append.mp he with h2 | h2
    · exact Or.inl ⟨e, h2, hp⟩
    · simp only [List.mem_singleton] at h2
      subst h2
      simp only [List.mem_singleton] at hp
      exact Or.inr hp
  | some ps =>
    rw [hl] at he
    rcases List.mem_map.mp he with ⟨e0, he0, heq⟩
    by_cases hc : (e0.1 == sym) = true
    · rw [if_pos hc] at heq
      subst heq
      rcases List.mem_append.mp hp with h3 | h3
      · exact Or.inl ⟨e0, he0, h3⟩
      · simp only [List.mem_singleton] at h3
        exact Or.inr h3
    · rw [if_neg hc] at heq
      subst heq
      exact Or.inl ⟨e0, he0, hp⟩

theorem ingestLoop_documents_length : ∀ (docs : List Doc) (startIdx i : ℕ) (st : VectorStore),
    (ingestLoop startIdx i docs st).documents.length = st.documents.length + docs.length := by
  intro docs
  induction docs with
  | nil => intro startIdx i st; rw [ingestLoop]; simp
  | cons d rest ih =>
    intro startIdx i st
    rw [ingestLoop, ih]
    simp
    omega

theorem ingestLoop_metadata_length : ∀ (docs : List Doc) (startIdx i : ℕ) (st : VectorStore),
    (ingestLoop startIdx i docs st).metadata.length = st.metadata.length + docs.length := by
  intro docs
  induction docs with
  | nil => intro startIdx i st; rw [ingestLoop]; simp
  | cons d rest ih =>
    intro startIdx i st
    rw [ingestLoop, ih]
    simp
    omega

theorem ingestLoop_index : ∀ (docs : List Doc) (startIdx i : ℕ) (st : VectorStore),
    (ingestLoop startIdx i docs st).index = st.index := by
  intro docs
  induction docs with
  | nil => intro startIdx i st; rw [ingestLoop]
  | cons d rest ih =>
    intro startIdx i st
    rw [ingestLoop, ih]

/-- Through the ingest loop, every recorded position stays a valid
document index: old positions were already valid, and each new position
equals the current document count. -/
theorem ingestLoop_ci_bound : ∀ (docs : List Doc) (startIdx i : ℕ) (st : VectorStore),
    st.documents.length = startIdx + i →
    (∀ e ∈ st.companyIndex, ∀ p ∈ e.2, p < st.documents.length) →
    ∀ e ∈ (ingestLoop startIdx i docs st).companyIndex, ∀ p ∈ e.2,
      p < (ingestLoop startIdx i docs st).documents.length := by
  intro docs
  induction docs with
  | nil =>
    intro startIdx i st hlen hci
    rw [ingestLoop]
    exact hci
  | cons d rest ih =>
    intro startIdx i st hlen hci
    rw [ingestLoop]
    refine ih startIdx (i + 1) _ ?_ ?_
    · simp
      omega
    · intro e he p hp
      rcases mem_updateCompanyIndex he hp with ⟨e2, he2, hp2⟩ | rfl
      · have := hci e2 he2 p hp2
        simp only [List.length_append, List.length_cons, List.length_nil]
        omega
      · simp only [List.length_append, List.length_cons, List.length_nil]
        omega

/-- Claim C1: After any successful add of a document batch (one embedding
obtained per document), `len(documents) == len(metadata) == index.count`
and every position listed under any symbol in the symbol index is a valid
document index — for every batch and every prior store state satisfying
the invariant. -/
theorem C1_add_documents_invariant (embed : List String → List (List ℚ))
    (st : VectorStore) (docs : List Doc) (hInv : StoreInv st)
    (hLen : (embed (docs.map (fun d => d.text))).length = docs.length) :
    StoreInv (addDocuments embed st docs) := by
  obtain ⟨h1, h2, h3⟩ := hInv
  rw [addDocuments]
  by_cases hE : (embed (docs.map (fun d => d.text))).isEmpty = true
  · rw [if_pos hE]
    exact ⟨h1, h2, h3⟩
  · rw [if_neg hE]
    refine ⟨?_, ?_, ?_⟩
    · rw [ingestLoop_documents_length, ingestLoop_metadata_length]
      simp [h1]
    · rw [ingestLoop_metadata_length, ingestLoop_index]
      simp [h2, hLen]
    · have hfin := ingestLoop_ci_bound docs st.documents.length 0
        { st with index := st.index ++ embed (docs.map (fun d => d.text)) }
        (by simp) (fun e he p hp => h3 e he p hp)
      exact hfin

/-- Claim C1 witness: adding one document to the empty store with a
one-vector-per-text provider preserves the invariant. -/
theorem C1_witness : StoreInv (addDocuments witnessEmbed emptyStore [witnessDoc]) :=
  C1_add_documents_invariant witnessEmbed emptyStore [witnessDoc]
    ⟨rfl, rfl, by simp [emptyStore]⟩ (by simp [witnessEmbed])

/-- Claim C2 counterexample: The claim states that on embedding failure
the add "reports failure to its caller".  In fact `_add_documents`
returns silently after logging, and `add_company_data` then returns
`True`: with a provider that returns no embeddings, adding a record with
one truthy category ingests nothing yet reports success. -/
theorem C2_counterexample :
    (addCompanyData failingEmbed "t0" emptyStore "AAPL" appleRecord).1 = true ∧
    (addCompanyData failingEmbed "t0" emptyStore "AAPL" appleRecord).2 = emptyStore := by
  refine ⟨by decide, by decide⟩

/-- Claim C2 amended: If the Embedding Provider fails for a batch, the add
operation ingests nothing (documents, metadata, symbol index and vector
index are all unchanged), but the call still reports success (`True`)
whenever the record produced at least one document — the failure is only
logged, never surfaced to the caller. -/
theorem C2_embedding_failure_aborts (embed : List String → List (List ℚ)) (now : String)
    (st : VectorStore) (symbol : String) (cd : StockRecord)
    (hFail : embed ((buildDocumentsToAdd symbol now cd).map (fun d => d.text)) = []) :
    addCompanyData embed now st symbol cd =
      (!(buildDocumentsToAdd symbol now cd).isEmpty, st) := by
  rw [addCompanyData]
  by_cases hE : (buildDocumentsToAdd symbol now cd).isEmpty = true
  · rw [if_pos hE, hE]
    rfl
  · rw [if_neg hE]
    have hE2 : (buildDocumentsToAdd symbol now cd).isEmpty = false := by
      cases hx : (buildDocumentsToAdd symbol now cd).isEmpty
      · rfl
      · exact absurd hx hE
    rw [hE2]
    rw [addDocuments, hFail]
    simp

/-- Claim C2 witness: for the amended theorem at the failing provider and
the one-category record. -/
theorem C2_witness :
    addCompanyData failingEmbed "t0" emptyStore "AAPL" appleRecord =
      (!(buildDocumentsToAdd "AAPL" "t0" appleRecord).isEmpty, emptyStore) :=
  C2_embedding_failure_aborts failingEmbed "t0" emptyStore "AAPL" appleRecord rfl

/-- Claim C10: A record with no truthy category field adds nothing:
`add_company_data` returns `False` and the store keeps all its prior
contents.  The result is the same for every embedding provider, which is
the extensional statement that no embedding call is made. -/
theorem C10_empty_record_noop (embed : List String → List (List ℚ)) (now : String)
    (st : VectorStore) (symbol : String) (cd : StockRecord)
    (hc : cd.company = none) (hf : cd.financial = none) (hh : cd.historical = none)
    (hn : cd.news = none ∨ cd.news = some []) (ha : cd.analyst = none) :
    addCompanyData embed now st symbol cd = (false, st) := by
  have hb : buildDocumentsToAdd symbol now cd = [] := by
    rw [buildDocumentsToAdd, hc, hf, hh, ha]
    rcases hn with hn | hn <;> rw [hn] <;> rfl
  rw [addCompanyData, hb]
  rfl

/-- Claim C10 witness: at a concrete all-absent record (using the
always-succeeding witness provider, underscoring that the provider is
never consulted). -/
theorem C10_witness :
    addCompanyData witnessEmbed "t0" emptyStore "AAPL" bareRecord = (false, emptyStore) :=
  C10_empty_record_noop witnessEmbed "t0" emptyStore "AAPL" bareRecord
    rfl rfl rfl (Or.inl rfl) rfl

/-! ### Fusion lemmas -/

theorem mem_addSourceUnique {acc : List String} {t : String} (s : String) (h : t ∈ acc) :
    t ∈ addSourceUnique acc s := by
  unfold addSourceUnique
  split_ifs
  · exact h
  · exact List.mem_append_left _ h

theorem mem_addOptSource {acc : List String} {t : String} (h : t ∈ acc) :
    ∀ o : Option String, t ∈ addOptSource acc o := by
  intro o
  cases o with
  | none => exact h
  | some s => exact mem_addSourceUnique s h

theorem firstSuccess_none {α : Type} : ∀ l : List (FetchOutcome α),
    (∀ o ∈ l, o.failed = true) → firstSuccess l = none := by
  intro l
  induction l with
  | nil => intro; rfl
  | cons o rest ih =>
    intro h
    cases o with
    | ok v =>
      have := h _ (List.mem_cons_self _ _)
      simp [FetchOutcome.failed] at this
    | empty =>
      show firstSuccess rest = none
      exact ih (fun o ho => h o (List.mem_cons_of_mem _ ho))
    | exc =>
      show firstSuccess rest = none
      exact ih (fun o ho => h o (List.mem_cons_of_mem _ ho))

/-- A name contributed by the quote field survives the whole
sources-used bookkeeping pass. -/
theorem mem_collectSources {r : StockRecord} {s : String}
    (h : s ∈ addOptSource [] (r.quote.bind (fun q => q.source))) : s ∈ collectSources r := by
  unfold collectSources
  apply mem_addOptSource
  have h4 := mem_addOptSource (mem_addOptSource (mem_addOptSource h
    (r.company.bind (fun c => c.source))) (r.historical.bind (fun h => h.source)))
    (r.financial.bind (fun f => f.source))
  rcases hn : r.news with _ | nl
  · exact h4
  · cases nl with
    | nil => exact h4
    | cons a rest => exact mem_addOptSource h4 a.source

/-- Claim C7: For every symbol and every assignment of per-collector
outcomes (truthy, falsy, or raised), the comprehensive fetch is a total
function — it never raises — and each category all of whose collector
calls failed resolves to absent (`None`) rather than failing the call;
moreover, if the preferred quote collector fails while the secondary
succeeds, the returned record carries the secondary's quote and
`sources_used` names the source recorded in that quote. -/
theorem C7_fusion_isolation (symbol now : String) (oc : CollectorOutcomes) :
    (oc.quoteYahoo.failed = true → oc.quoteAlpha.failed = true → oc.quoteFmp.failed = true →
      (getComprehensiveStockData symbol now oc).quote = none) ∧
    (oc.companyAlpha.failed = true → oc.companyYahoo.failed = true → oc.companyFmp.failed = true →
      (getComprehensiveStockData symbol now oc).company = none) ∧
    (oc.historicalYahoo.failed = true → oc.historicalAlpha.failed = true →
      oc.historicalFmp.failed = true →
      (getComprehensiveStockData symbol now oc).historical = none) ∧
    (oc.fmpKeyMetrics.failed = true → oc.fmpRatios.failed = true → oc.yfStatements.failed = true →
      oc.avEarnings.failed = true → (getComprehensiveStockData symbol now oc).financial = none) ∧
    (oc.newsYahoo.failed = true → oc.newsFmp.failed = true →
      (getComprehensiveStockData symbol now oc).news = none) ∧
    (oc.yfRecommendations.failed = true → oc.fmpEstimates.failed = true →
      oc.yfCalendar.failed = true → oc.fmpCalendar.failed = true →
      (getComprehensiveStockData symbol now oc).analyst = none) ∧
    (oc.quoteYahoo.failed = true → ∀ q : Quote, oc.quoteAlpha = .ok q →
      (getComprehensiveStockData symbol now oc).quote = some q ∧
      ∀ s, q.source = some s → s ∈ (getComprehensiveStockData symbol now oc).sources_used) := by
  refine ⟨?_, ?_, ?_, ?_, ?_, ?_, ?_⟩
  · intro h1 h2 h3
    show firstSuccess [oc.quoteYahoo, oc.quoteAlpha, oc.quoteFmp] = none
    refine firstSuccess_none _ ?_
    intro o ho
    rcases List.mem_cons.mp ho with rfl | ho2
    · exact h1
    rcases List.mem_cons.mp ho2 with rfl | ho3
    · exact h2
    rcases List.mem_cons.mp ho3 with rfl | ho4
    · exact h3
    · simp at ho4
  · intro h1 h2 h3
    show firstSuccess [oc.companyAlpha, oc.companyYahoo, oc.companyFmp] = none
    refine firstSuccess_none _ ?_
    intro o ho
    rcases List.mem_cons.mp ho with rfl | ho2
    · exact h1
    rcases List.mem_cons.mp ho2 with rfl | ho3
    · exact h2
    rcases List.mem_cons.mp ho3 with rfl | ho4
    · exact h3
    · simp at ho4
  · intro h1 h2 h3
    show firstSuccess [oc.historicalYahoo, oc.historicalAlpha, oc.historicalFmp] = none
    refine firstSuccess_none _ ?_
    intro o ho
    rcases List.mem_cons.mp ho with rfl | ho2
    · exact h1
    rcases List.mem_cons.mp ho2 with rfl | ho3
    · exact h2
    rcases List.mem_cons.mp ho3 with rfl | ho4
    · exact h3
    · simp at ho4
  · intro h1 h2 h3 h4
    show getFinancialData oc = none
    cases hm : oc.fmpKeyMetrics <;> cases hr : oc.fmpRatios <;>
      cases hs : oc.yfStatements <;> cases he : oc.avEarnings <;>
      simp_all [getFinancialData, FetchOutcome.failed]
  · intro h1 h2
    show getNewsData oc = none
    cases hy : oc.newsYahoo <;> cases hf : oc.newsFmp <;>
      simp_all [getNewsData, FetchOutcome.failed]
  · intro h1 h2 h3 h4
    show getAnalystData oc = none
    cases ha : oc.yfRecommendations <;> cases hb : oc.fmpEstimates <;>
      cases hc : oc.yfCalendar <;> cases hd : oc.fmpCalendar <;>
      simp_all [getAnalystData, FetchOutcome.failed]
  · intro h1 q hq
    have hquote : getQuoteData oc = some q := by
      unfold getQuoteData
      cases hy : oc.quoteYahoo with
      | ok v => rw [hy] at h1; simp [FetchOutcome.failed] at h1
      | empty => show firstSuccess [oc.quoteAlpha, oc.quoteFmp] = some q; rw [hq]; rfl
      | exc => show firstSuccess [oc.quoteAlpha, oc.quoteFmp] = some q; rw [hq]; rfl
    refine ⟨hquote, ?_⟩
    intro s hs
    show s ∈ collectSources
      { symbol := pyUpper symbol, timestamp := now, quote := getQuoteData oc,
        company := getCompanyData oc, historical := getHistoricalData oc,
        financial := getFinancialData oc, news := getNewsData oc,
        analyst := getAnalystData oc, sources_used := [] }
    apply mem_collectSources
    simp only [hquote]
    simp [hs, addOptSource, addSourceUnique]

/-- Claim C7 witness: with Yahoo raising and Alpha Vantage succeeding, the
comprehensive record carries Alpha Vantage's quote and names it in
`sources_used`. -/
theorem C7_witness :
    (getComprehensiveStockData "AAPL" "t0" fallbackOutcomes).quote = some secondaryQuote ∧
    "alpha_vantage" ∈ (getComprehensiveStockData "AAPL" "t0" fallbackOutcomes).sources_used := by
  have h := (C7_fusion_isolation "AAPL" "t0" fallbackOutcomes).2.2.2.2.2.2 rfl secondaryQuote rfl
  exact ⟨h.1, h.2 "alpha_vantage" rfl⟩

/-! ### Historical-format lemmas -/

/-- Every extracted close price is non-zero (Python truthiness filters
out `0.0` closes along with missing ones). -/
theorem extractClosePrices_ne_zero (hi : HistoricalInfo) :
    ∀ c ∈ extractClosePrices hi, c ≠ 0 := by
  intro c hc
  simp only [extractClosePrices, List.mem_filterMap] at hc
  obtain ⟨b, _, hbc⟩ := hc
  cases hcl : b.close with
  | none => rw [hcl] at hbc; simp at hbc
  | some v =>
    rw [hcl] at hbc
    by_cases hv : v = 0
    · rw [Option.some_bind, if_pos hv] at hbc
      simp at hbc
    · rw [Option.some_bind, if_neg hv] at hbc
      cases hbc
      exact hv

theorem getLastD_mem {α : Type} (l : List α) (d : α) (h : l ≠ []) : l.getLastD d ∈ l := by
  cases l with
  | nil => exact absurd rfl h
  | cons a rest =>
    rw [List.getLastD_eq_getLast?, List.getLast?_eq_getLast _ (by simp)]
    simp only [Option.getD_some]
    exact List.getLast_mem _

/-- Claim C8: The historical summary reports the signed percentage change
`(current - past) / past * 100` between the most recent close and the
close about 30 data points earlier; with fewer than 2 usable price points
the stat is skipped and the fallback string returned, and whenever the
division is performed its divisor is non-zero. -/
theorem C8_historical_change (symbol : String) (hi : HistoricalInfo) :
    ((extractClosePrices hi).length < 2 →
      formatHistoricalData symbol hi = "Historical data for " ++ symbol) ∧
    (2 ≤ (extractClosePrices hi).length →
      (extractClosePrices hi).getLastD 0 ≠ 0 ∧
      formatHistoricalData symbol hi =
        "Historical Performance for " ++ symbol ++ ": Current $" ++
          formatFixed2 ((extractClosePrices hi).headD 0) ++ ", 30-day change: " ++
          formatSigned2 (((extractClosePrices hi).headD 0 - (extractClosePrices hi).getLastD 0) /
            (extractClosePrices hi).getLastD 0 * 100) ++ "%") := by
  constructor
  · intro hlt
    rw [formatHistoricalData]
    by_cases hD : hi.data.isEmpty = true
    · rw [if_pos hD]
    · rw [if_neg hD, if_neg (by omega : ¬ 2 ≤ (extractClosePrices hi).length)]
  · intro hge
    have hne : extractClosePrices hi ≠ [] := by
      intro h0
      rw [h0] at hge
      simp at hge
    have hdata : ¬(hi.data.isEmpty = true) := by
      intro h0
      have hnil : hi.data = [] := by
        cases hd : hi.data
        · rfl
        · rw [hd] at h0; simp at h0
      refine hne ?_
      rw [extractClosePrices, hnil]
      rfl
    refine ⟨extractClosePrices_ne_zero hi _ (getLastD_mem _ 0 hne), ?_⟩
    rw [formatHistoricalData, if_neg hdata, if_pos hge]

/-- Claim C8 witness: at a two-bar record the division is performed and
its divisor is non-zero. -/
theorem C8_witness : (extractClosePrices histTwoBars).getLastD 0 ≠ 0 :=
  ((C8_historical_change "AAPL" histTwoBars).2 (by decide)).1

/-! ### Removal lemmas -/

theorem snd_mem_of_mem_enumFrom {α : Type} : ∀ (l : List α) (n : ℕ) (p : ℕ × α),
    p ∈ List.enumFrom n l → p.2 ∈ l := by
  intro l
  induction l with
  | nil => intro n p h; simp [List.enumFrom] at h
  | cons a rest ih =>
    intro n p h
    rw [List.enumFrom_cons] at h
    rcases List.mem_cons.mp h with rfl | h2
    · exact List.mem_cons_self _ _
    · exact List.mem_cons_of_mem _ (ih (n + 1) p h2)

theorem enumFrom_filter_map {α β : Type} (q : α → Bool) (f : α → β) :
    ∀ (l : List α) (n : ℕ),
      ((List.enumFrom n l).filter (fun p => q p.2)).map (fun p => f p.2) =
        (l.filter q).map f := by
  intro l
  induction l with
  | nil => intro n; rfl
  | cons a rest ih =>
    intro n
    rw [List.enumFrom_cons]
    by_cases hq : q a = true <;> simp [List.filter_cons, hq, ih (n + 1)]

/-- The removal loop filters the enumerated pairs by position and rebuilds
the symbol map over the survivors with fresh consecutive positions. -/
theorem removeLoop_eq (indices : List ℕ) : ∀ (pairs : List (ℕ × String × Doc))
    (docs : List String) (metas : List Doc) (ci : List (String × List ℕ)),
    docs.length = metas.length →
    removeLoop indices pairs docs metas ci =
      (docs ++ (pairs.filter (fun p => decide (p.1 ∉ indices))).map (fun p => p.2.1),
       metas ++ (pairs.filter (fun p => decide (p.1 ∉ indices))).map (fun p => p.2.2),
       buildCIAux docs.length ci
         ((pairs.filter (fun p => decide (p.1 ∉ indices))).map (fun p => p.2.2))) := by
  intro pairs
  induction pairs with
  | nil =>
    intro docs metas ci hlen
    rw [removeLoop]
    simp [buildCIAux]
  | cons p rest ih =>
    intro docs metas ci hlen
    obtain ⟨i, d, m⟩ := p
    rw [removeLoop]
    by_cases hi : i ∈ indices
    · rw [if_pos hi, ih docs metas ci hlen]
      simp [List.filter_cons, hi]
    · rw [if_neg hi,
        ih (docs ++ [d]) (metas ++ [m]) (updateCompanyIndex ci (pyUpper m.symbol) docs.length)
          (by simp [hlen])]
      simp only [List.filter_cons, List.length_append, List.length_cons, List.length_nil]
      rw [if_pos (by simp [hi])]
      simp only [List.map_cons, buildCIAux, List.append_assoc, List.singleton_append]

/-- Claim C6: `remove_company_data` returns `False` and changes nothing when
the symbol has no recorded positions; otherwise (when the recorded
positions are exactly the symbol's documents) it returns `True`, filters
out exactly that symbol's documents and metadata, and recomputes a fresh
symbol-to-position map over the remainder.  On the concrete two-symbol
store, removing `AAPL` leaves `total_companies = 1` and any subsequent
search filtered to `AAPL` returns `[]` (for every query embedding and
`k`). -/
theorem C6_remove_company_data :
    (∀ (st : VectorStore) (symbol : String),
      (lookupCI st.companyIndex (pyUpper symbol)).getD [] = [] →
      removeCompanyData st symbol = (false, st)) ∧
    (∀ (st : VectorStore) (symbol : String),
      st.documents.length = st.metadata.length →
      (∀ p ∈ (st.documents.zip st.metadata).enum,
        (p.1 ∈ (lookupCI st.companyIndex (pyUpper symbol)).getD [] ↔
          pyUpper p.2.2.symbol = pyUpper symbol)) →
      (∃ p ∈ (st.documents.zip st.metadata).enum,
        p.1 ∈ (lookupCI st.companyIndex (pyUpper symbol)).getD []) →
      (removeCompanyData st symbol).1 = true ∧
      (removeCompanyData st symbol).2.documents =
        ((st.documents.zip st.metadata).filter
          (fun pr => decide (¬ pyUpper pr.2.symbol = pyUpper symbol))).map (fun pr => pr.1) ∧
      (removeCompanyData st symbol).2.metadata =
        ((st.documents.zip st.metadata).filter
          (fun pr => decide (¬ pyUpper pr.2.symbol = pyUpper symbol))).map (fun pr => pr.2) ∧
      (removeCompanyData st symbol).2.companyIndex =
        buildCompanyIndex ((removeCompanyData st symbol).2.metadata)) ∧
    (∀ dim, (getStats (removeCompanyData twoSymbolStore "AAPL").2 dim).total_companies = 1) ∧
    (∀ (qEmb : Option (List ℚ)) (k : ℕ),
      search (removeCompanyData twoSymbolStore "AAPL").2 qEmb k (some "AAPL") = []) := by
  refine ⟨?_, ?_, ?_, ?_⟩
  · intro st symbol h
    rw [removeCompanyData, h]
    rfl
  · intro st symbol hLen hIff hEx
    have hne2 : ¬(((lookupCI st.companyIndex (pyUpper symbol)).getD []).isEmpty = true) := by
      obtain ⟨p, hp, hpin⟩ := hEx
      intro hempty
      rw [List.isEmpty_iff.mp hempty] at hpin
      simp at hpin
    have hfeq : ((st.documents.zip st.metadata).enum).filter
          (fun p => decide (p.1 ∉ (lookupCI st.companyIndex (pyUpper symbol)).getD [])) =
        ((st.documents.zip st.metadata).enum).filter
          (fun p => decide (¬ pyUpper p.2.2.symbol = pyUpper symbol)) := by
      apply List.filter_congr
      intro p hp
      rw [decide_eq_decide]
      exact not_congr (hIff p hp)
    have hloop := removeLoop_eq ((lookupCI st.companyIndex (pyUpper symbol)).getD [])
      ((st.documents.zip st.metadata).enum) [] [] [] rfl
    rw [hfeq] at hloop
    have hdocs : (removeLoop ((lookupCI st.companyIndex (pyUpper symbol)).getD [])
        ((st.documents.zip st.metadata).enum) [] [] []).1 =
        ((st.documents.zip st.metadata).filter
          (fun pr => decide (¬ pyUpper pr.2.symbol = pyUpper symbol))).map (fun pr => pr.1) := by
      rw [hloop]
      simp only [List.nil_append]
      exact enumFrom_filter_map (fun (pr : String × Doc) => decide (¬ pyUpper pr.2.symbol = pyUpper symbol))
        (fun pr => pr.1) _ 0
    have hmetas : (removeLoop ((lookupCI st.companyIndex (pyUpper symbol)).getD [])
        ((st.documents.zip st.metadata).enum) [] [] []).2.1 =
        ((st.documents.zip st.metadata).filter
          (fun pr => decide (¬ pyUpper pr.2.symbol = pyUpper symbol))).map (fun pr => pr.2) := by
      rw [hloop]
      simp only [List.nil_append]
      exact enumFrom_filter_map (fun (pr : String × Doc) => decide (¬ pyUpper pr.2.symbol = pyUpper symbol))
        (fun pr => pr.2) _ 0
    have hci : (removeLoop ((lookupCI st.companyIndex (pyUpper symbol)).getD [])
        ((st.documents.zip st.metadata).enum) [] [] []).2.2 =
        buildCompanyIndex ((removeLoop ((lookupCI st.companyIndex (pyUpper symbol)).getD [])
          ((st.documents.zip st.metadata).enum) [] [] []).2.1) := by
      rw [hloop]
      simp only [List.nil_append]
      rfl
    have hziplen : (st.documents.zip st.metadata).length = st.documents.length := by
      rw [List.length_zip, ← hLen]
      simp
    have hlt : (removeLoop ((lookupCI st.companyIndex (pyUpper symbol)).getD [])
        ((st.documents.zip st.metadata).enum) [] [] []).1.length < st.documents.length := by
      rw [hdocs, List.length_map, ← hziplen]
      apply List.length_filter_lt_length_iff_exists.mpr
      obtain ⟨p, hp, hpin⟩ := hEx
      refine ⟨p.2, snd_mem_of_mem_enumFrom _ 0 p hp, ?_⟩
      simp only [decide_eq_true_eq]
      intro hcon
      exact hcon ((hIff p hp).mp hpin)
    rw [removeCompanyData, if_neg hne2, if_pos hlt]
    by_cases hE0 : (removeLoop ((lookupCI st.companyIndex (pyUpper symbol)).getD [])
        ((st.documents.zip st.metadata).enum) [] [] []).1.isEmpty = true
    · rw [if_pos hE0]
      have hd0 : ((st.documents.zip st.metadata).filter
          (fun (pr : String × Doc) => decide (¬ pyUpper pr.2.symbol = pyUpper symbol))).map
            (fun pr => pr.1) = [] := by
        rw [← hdocs]
        exact List.isEmpty_iff.mp hE0
      have hf0 : ((st.documents.zip st.metadata).filter
          (fun (pr : String × Doc) => decide (¬ pyUpper pr.2.symbol = pyUpper symbol))) = [] := by
        have := congrArg List.length hd0
        rw [List.length_map] at this
        exact List.eq_nil_of_length_eq_zero this
      refine ⟨rfl, by rw [hd0], by rw [hf0]; rfl, rfl⟩
    · rw [if_neg hE0]
      exact ⟨rfl, hdocs, hmetas, by rw [hci, hmetas]⟩
  · intro dim
    rfl
  · intro qEmb k
    cases qEmb with
    | none => rfl
    | some qv => rfl

/-- Claim C6 witness: for the hypothesis-bearing conjuncts: removing
`AAPL` from the two-symbol store applies the filtered removal and
reports `True`; removing an unknown symbol is a `False` no-op. -/
theorem C6_witness :
    (removeCompanyData twoSymbolStore "AAPL").1 = true ∧
    removeCompanyData twoSymbolStore "ZZZZ" = (false, twoSymbolStore) :=
  ⟨(C6_remove_company_data.2.1 twoSymbolStore "AAPL" rfl (by decide) (by decide)).1,
   C6_remove_company_data.1 twoSymbolStore "ZZZZ" (by decide)⟩

end AgentFin
